import Mathlib

/-!
Verification of the measurement-normalizer and CRUD-aggregation core of
`src/pruebas.py`.

Python strings are embedded as `List Char`.  Python cell values that may be
missing (pandas `NaN` / `None`) are embedded as `Option (List Char)`, with
`none` standing for a missing value.  A Python function that may raise an
uncaught exception is embedded with result type `Option _`, where `none`
stands for a raised exception.  Real numbers produced by the Python builtin
`float` are embedded as rationals (`ℚ`); every numeric literal occurring in
the program is an ordinary decimal literal, which `float` maps to an exactly
representable-as-rational value model.
-/

attribute [local semireducible] Rat.mul Rat.inv

namespace Pruebas

/-- Boolean test that `pat` is a prefix of the second list
(embeds the positional matching done by Python `in` / `str.replace`). -/
def isPreL : List Char → List Char → Bool
  | [], _ => true
  | _ :: _, [] => false
  | p :: ps, c :: cs => p == c && isPreL ps cs

/-- Embeds the Python substring test `pat in s`: true iff `pat` occurs
contiguously somewhere in `s` (always true for the empty pattern). -/
def containsL (pat : List Char) : List Char → Bool
  | [] => isPreL pat []
  | c :: cs => isPreL pat (c :: cs) || containsL pat cs

/-- Fuelled worker for `replaceAll`.  Each step consumes at least one input
character, so fuel `s.length` suffices for a non-empty pattern. -/
def replaceAllAux (pat rep : List Char) : Nat → List Char → List Char
  | 0, s => s
  | _ + 1, [] => []
  | fuel + 1, c :: cs =>
    if isPreL pat (c :: cs) then
      rep ++ replaceAllAux pat rep fuel (List.drop pat.length (c :: cs))
    else
      c :: replaceAllAux pat rep fuel cs

/-- Embeds Python `s.replace(pat, rep)`: replaces every (leftmost,
non-overlapping) occurrence of `pat` in `s` by `rep`.  The program only ever
replaces with the empty string and never uses an empty pattern; for the empty
pattern we return `s` unchanged. -/
def replaceAll (pat rep s : List Char) : List Char :=
  if pat = [] then s else replaceAllAux pat rep s.length s

/-- Embeds the cleaning step `str(x).replace(',', '').replace('"', '')`
shared by both normalizers (src/pruebas.py lines 54 and 83). -/
def clean (s : List Char) : List Char :=
  replaceAll ['\"'] [] (replaceAll [','] [] s)

/-- Numeric value of a decimal digit character. -/
def digVal (c : Char) : Nat := c.toNat - 48

/-- Value of a list of decimal digit characters, most significant first. -/
def natOfDigits (ds : List Char) : Nat :=
  ds.foldl (fun a c => 10 * a + digVal c) 0

/-- Whitespace characters stripped by Python `float` around a literal. -/
def isPySpace (c : Char) : Bool :=
  c == ' ' || c == '\t' || c == '\n' || c == '\r' ||
  c == Char.ofNat 11 || c == Char.ofNat 12

/-- Strip leading and trailing whitespace, as Python `float` does. -/
def stripWS (s : List Char) : List Char :=
  ((s.dropWhile isPySpace).reverse.dropWhile isPySpace).reverse

/-- Consume an optional leading sign; the Bool is true for a minus sign. -/
def parseSign : List Char → Bool × List Char
  | '-' :: r => (true, r)
  | '+' :: r => (false, r)
  | s => (false, s)

/-- Grammar core of the Python builtin `float` on a stripped string:
optional sign, then digits with an optional fractional part (at least one
digit overall), then an optional exponent part.  Yields `none` exactly when
`float` would raise `ValueError`.  The special forms `inf`/`nan` and digit
underscores, which never occur in the program's data, are not modelled. -/
def pyFloatCore (s : List Char) : Option ℚ :=
  let sg := parseSign s
  let ip := sg.2.takeWhile Char.isDigit
  let r1 := sg.2.dropWhile Char.isDigit
  let fpr : List Char × List Char :=
    match r1 with
    | '.' :: t => (t.takeWhile Char.isDigit, t.dropWhile Char.isDigit)
    | _ => ([], r1)
  if ip = [] ∧ fpr.1 = [] then none
  else
    let mant : ℚ := (natOfDigits (ip ++ fpr.1) : ℚ) / ((10 : ℚ) ^ fpr.1.length)
    let m : ℚ := if sg.1 then -mant else mant
    match fpr.2 with
    | [] => some m
    | e :: t =>
      if e == 'e' || e == 'E' then
        let esg := parseSign t
        let ed := esg.2.takeWhile Char.isDigit
        let r3 := esg.2.dropWhile Char.isDigit
        if ed = [] ∨ r3 ≠ [] then none
        else if esg.1 then some (m / (10 : ℚ) ^ natOfDigits ed)
        else some (m * (10 : ℚ) ^ natOfDigits ed)
      else none

/-- Embeds the Python builtin `float : str → float` on a text value, as the
program calls it: `none` models a raised `ValueError`. -/
def pyFloat? (s : List Char) : Option ℚ :=
  pyFloatCore (stripWS s)

/-- Embeds `parse_time_to_microseconds` (src/pruebas.py lines 40-67).
The argument `none` models a pandas-missing (`NaN`/`None`) cell, `some s` a
string cell.  The result `none` models an uncaught exception: the
`try/except` of the source only guards the final no-marker branch, so a
`float` failure inside a marker branch propagates. -/
def parse_time_to_microseconds (x : Option (List Char)) : Option ℚ :=
  match x with
  | none => some 0
  | some s =>
    if s = [] then some 0
    else
      let t := clean s
      if containsL ['m', 's'] t then
        (pyFloat? (replaceAll [' ', 'm', 's'] [] t)).map (fun v => v * 1000)
      else if containsL ['μ', 's'] t then
        pyFloat? (replaceAll [' ', 'μ', 's'] [] t)
      else if containsL ['s'] t then
        (pyFloat? (replaceAll [' ', 's'] [] t)).map (fun v => v * 1000000)
      else
        match pyFloat? t with
        | some v => some v
        | none => some 0

/-- Embeds `parse_memory` (src/pruebas.py lines 69-96), with the same
conventions as `parse_time_to_microseconds`. -/
def parse_memory (x : Option (List Char)) : Option ℚ :=
  match x with
  | none => some 0
  | some s =>
    if s = [] then some 0
    else
      let t := clean s
      if containsL ['K', 'B'] t then
        pyFloat? (replaceAll [' ', 'K', 'B'] [] t)
      else if containsL ['M', 'B'] t then
        (pyFloat? (replaceAll [' ', 'M', 'B'] [] t)).map (fun v => v * 1024)
      else if containsL ['G', 'B'] t then
        (pyFloat? (replaceAll [' ', 'G', 'B'] [] t)).map (fun v => v * 1024 * 1024)
      else
        match pyFloat? t with
        | some v => some v
        | none => some 0

/-- One row of a source benchmark table, as read from a CSV report: the
columns the program uses.  `Mean` and `Allocated` cells may be missing. -/
structure SrcRow where
  Method : List Char
  Mean : Option (List Char)
  Allocated : Option (List Char)
deriving DecidableEq

/-- One row of a source table after the two `apply` normalization passes of
`prepare_crud_comparison_data` (src/pruebas.py lines 114-116) added the
`Mean_μs` and `Allocated_KB` columns. -/
structure NormRow where
  Method : List Char
  Mean_us : ℚ
  Alloc_KB : ℚ
deriving DecidableEq

/-- One record of the combined comparison table
(src/pruebas.py lines 133-157). -/
structure CrudRecord where
  Operation : List Char
  Technology : List Char
  Time_us : ℚ
  Memory_KB : ℚ
deriving DecidableEq

/-- Embeds the per-row effect of
`df['Mean_μs'] = df['Mean'].apply(parse_time_to_microseconds)` and
`df['Allocated_KB'] = df['Allocated'].apply(parse_memory)`
(src/pruebas.py lines 114-116); `none` models an exception raised while
normalizing the row. -/
def normalizeRow (r : SrcRow) : Option NormRow :=
  match parse_time_to_microseconds r.Mean, parse_memory r.Allocated with
  | some t, some m => some ⟨r.Method, t, m⟩
  | _, _ => none

/-- Normalization pass over a whole table; an exception on any row aborts
the whole `prepare_crud_comparison_data` call. -/
def normalizeTable : List SrcRow → Option (List NormRow)
  | [] => some []
  | r :: rs =>
    match normalizeRow r, normalizeTable rs with
    | some nr, some nrs => some (nr :: nrs)
    | _, _ => none

/-- The fixed CRUD operation list (src/pruebas.py lines 119-122). -/
def operations : List (List Char) :=
  ["CreateCustomer".data, "ReadCustomer".data, "UpdateCustomer".data,
   "DeleteCustomer".data, "CreateProduct".data, "ReadProduct".data,
   "UpdateProduct".data, "DeleteProduct".data, "CreateOrder".data,
   "ReadOrder".data, "UpdateOrder".data, "DeleteOrder".data,
   "CreateOrderDetail".data, "ReadOrderDetail".data,
   "UpdateOrderDetail".data, "DeleteOrderDetail".data]

/-- Technology label used for the Entity Framework table. -/
def efTech : List Char := "Entity Framework".data

/-- Technology label used for the ADO.NET table. -/
def adoTech : List Char := "ADO.NET".data

/-- Technology label used for the Dapper table. -/
def dapTech : List Char := "Dapper".data

/-- Embeds one `if not X_row.empty: comparison_data.append({...})` block
(src/pruebas.py lines 133-157): `t.filter ...` embeds the pandas selection
`df[df['Method'] == op]` and the head of the selection embeds `.iloc[0]`. -/
def techRecords (op tech : List Char) (t : List NormRow) : List CrudRecord :=
  match t.filter (fun r => r.Method == op) with
  | [] => []
  | r :: _ => [⟨op, tech, r.Mean_us, r.Alloc_KB⟩]

/-- The loop over `operations` of `prepare_crud_comparison_data`
(src/pruebas.py lines 127-157), on already-normalized tables. -/
def buildComparison (e a d : List NormRow) : List CrudRecord :=
  operations.flatMap fun op =>
    techRecords op efTech e ++ techRecords op adoTech a ++ techRecords op dapTech d

/-- Embeds `prepare_crud_comparison_data` (src/pruebas.py lines 98-159).
The three arguments embed `data['ef_antes']`, `data['adonet_antes']` and
`data['dapper_antes']`; `none` models an exception escaping the call. -/
def prepare_crud_comparison_data (ef ado dap : List SrcRow) :
    Option (List CrudRecord) :=
  match normalizeTable ef, normalizeTable ado, normalizeTable dap with
  | some e, some a, some d => some (buildComparison e a d)
  | _, _, _ => none

/-! Lemmas about the string machinery. -/

theorem isPreL_self (pat : List Char) : isPreL pat pat = true := by
  induction pat with
  | nil => rfl
  | cons p ps ih => simp [isPreL, ih]

theorem isPreL_append_self (pat ys : List Char) : isPreL pat (pat ++ ys) = true := by
  induction pat with
  | nil => rfl
  | cons p ps ih => simp [isPreL, ih]

theorem containsL_append_self (p : Char) (ps xs : List Char) :
    containsL (p :: ps) (xs ++ p :: ps) = true := by
  induction xs with
  | nil => simp [containsL, isPreL_self]
  | cons x xs ih => simp [containsL, ih]

theorem isPreL_mem {pat t : List Char} (h : isPreL pat t = true) :
    ∀ c ∈ pat, c ∈ t := by
  induction pat generalizing t with
  | nil => simp
  | cons p ps ih =>
    cases t with
    | nil => simp [isPreL] at h
    | cons d ds =>
      simp only [isPreL, Bool.and_eq_true, beq_iff_eq] at h
      intro c hc
      rcases List.mem_cons.mp hc with hc | hc
      · exact hc ▸ h.1 ▸ List.mem_cons_self _ _
      · exact List.mem_cons_of_mem _ (ih h.2 c hc)

theorem containsL_mem {pat s : List Char} (h : containsL pat s = true) :
    ∀ c ∈ pat, c ∈ s := by
  induction s with
  | nil =>
    cases pat with
    | nil => simp
    | cons p ps => simp [containsL, isPreL] at h
  | cons d ds ih =>
    simp only [containsL, Bool.or_eq_true] at h
    rcases h with h | h
    · exact isPreL_mem h
    · exact fun c hc => List.mem_cons_of_mem _ (ih h c hc)

theorem containsL_eq_false {pat s : List Char} {c : Char}
    (hc : c ∈ pat) (h : c ∉ s) : containsL pat s = false := by
  cases hcl : containsL pat s with
  | false => rfl
  | true => exact absurd (containsL_mem hcl c hc) h

theorem replaceAllAux_nil (pat rep : List Char) (fuel : Nat) :
    replaceAllAux pat rep fuel [] = [] := by
  cases fuel <;> rfl

theorem replaceAllAux_of_not_contains {pat s : List Char} (rep : List Char)
    (h : containsL pat s = false) :
    ∀ fuel, replaceAllAux pat rep fuel s = s := by
  induction s with
  | nil => intro fuel; cases fuel <;> rfl
  | cons c cs ih =>
    intro fuel
    cases fuel with
    | zero => rfl
    | succ f =>
      simp only [containsL, Bool.or_eq_false_iff] at h
      simp [replaceAllAux, h.1, ih h.2 f]

theorem replaceAll_of_not_contains {pat s : List Char} (rep : List Char)
    (h : containsL pat s = false) : replaceAll pat rep s = s := by
  unfold replaceAll
  split
  · rfl
  · exact replaceAllAux_of_not_contains rep h _

theorem replaceAllAux_append_pat {p : Char} {ps : List Char} :
    ∀ (num : List Char) (fuel : Nat), p ∉ num → num.length < fuel →
      replaceAllAux (p :: ps) [] fuel (num ++ p :: ps) = num := by
  intro num
  induction num with
  | nil =>
    intro fuel _ hf
    cases fuel with
    | zero => omega
    | succ f =>
      simp only [List.nil_append, replaceAllAux, isPreL_self, if_pos]
      simp [List.drop_length, replaceAllAux_nil]
  | cons a num ih =>
    intro fuel ha hf
    cases fuel with
    | zero => simp at hf
    | succ f =>
      have hpa : (p == a) = false := by
        simp only [beq_eq_false_iff_ne, ne_eq]
        intro h
        exact ha (h ▸ List.mem_cons_self _ _)
      simp only [List.cons_append, replaceAllAux, isPreL, hpa, Bool.false_and,
        if_neg (Bool.false_ne_true), List.append_eq]
      have : p ∉ num := fun h => ha (List.mem_cons_of_mem _ h)
      rw [ih f this (by simpa using Nat.lt_of_succ_lt_succ hf)]

theorem replaceAll_append_pat {p : Char} {ps num : List Char} (hp : p ∉ num) :
    replaceAll (p :: ps) [] (num ++ p :: ps) = num := by
  unfold replaceAll
  rw [if_neg (by simp)]
  exact replaceAllAux_append_pat num _ hp (by simp)

theorem replaceAllAux_single_filter (c : Char) :
    ∀ (s : List Char) (fuel : Nat), s.length ≤ fuel →
      replaceAllAux [c] [] fuel s = s.filter (fun d => !(d == c)) := by
  intro s
  induction s with
  | nil => intro fuel _; cases fuel <;> rfl
  | cons d ds ih =>
    intro fuel hf
    cases fuel with
    | zero => simp at hf
    | succ f =>
      have hlen : ds.length ≤ f := by simpa using hf
      by_cases hcd : c = d
      · have hpre : isPreL [c] (d :: ds) = true := by simp [isPreL, hcd]
        simp only [replaceAllAux, hpre, if_pos, List.nil_append]
        have : List.drop ([c].length) (d :: ds) = ds := by simp
        rw [this, ih f hlen]
        simp [List.filter, hcd]
      · have hpre : isPreL [c] (d :: ds) = false := by
          simp [isPreL]; exact hcd
        simp only [replaceAllAux, hpre, if_neg (Bool.false_ne_true)]
        rw [ih f hlen]
        have : (!(d == c)) = true := by simp; exact fun h => hcd h.symm
        simp [List.filter, this]

theorem replaceAll_single_filter (c : Char) (s : List Char) :
    replaceAll [c] [] s = s.filter (fun d => !(d == c)) := by
  unfold replaceAll
  rw [if_neg (by simp)]
  exact replaceAllAux_single_filter c s s.length le_rfl

theorem mem_replaceAllAux {pat : List Char} {x : Char} :
    ∀ (fuel : Nat) (s : List Char), x ∈ replaceAllAux pat [] fuel s → x ∈ s := by
  intro fuel
  induction fuel with
  | zero => intro s h; exact h
  | succ f ih =>
    intro s h
    cases s with
    | nil => simp [replaceAllAux] at h
    | cons c cs =>
      by_cases hc : isPreL pat (c :: cs) = true
      · rw [replaceAllAux, if_pos hc, List.nil_append] at h
        exact List.drop_subset _ _ (ih _ h)
      · rw [replaceAllAux, if_neg hc] at h
        rcases List.mem_cons.mp h with h | h
        · exact h ▸ List.mem_cons_self _ _
        · exact List.mem_cons_of_mem _ (ih _ h)

theorem mem_replaceAll {pat s : List Char} {x : Char}
    (h : x ∈ replaceAll pat [] s) : x ∈ s := by
  unfold replaceAll at h
  split at h
  · exact h
  · exact mem_replaceAllAux _ _ h

theorem mem_clean {s : List Char} {x : Char} (h : x ∈ clean s) : x ∈ s :=
  mem_replaceAll (mem_replaceAll h)

theorem mem_dropWhile {p : Char → Bool} :
    ∀ {s : List Char} {x : Char}, x ∈ s.dropWhile p → x ∈ s := by
  intro s
  induction s with
  | nil => intro x h; exact h
  | cons c cs ih =>
    intro x h
    rw [List.dropWhile_cons] at h
    split at h
    · exact List.mem_cons_of_mem _ (ih h)
    · exact h

theorem mem_stripWS {s : List Char} {x : Char} (h : x ∈ stripWS s) : x ∈ s := by
  unfold stripWS at h
  rw [List.mem_reverse] at h
  have h2 := mem_dropWhile h
  rw [List.mem_reverse] at h2
  exact mem_dropWhile h2

theorem parseSign_fst_false {s : List Char} (h : '-' ∉ s) :
    (parseSign s).1 = false := by
  unfold parseSign
  split
  · simp at h
  · rfl
  · rfl

theorem pyFloatCore_nonneg {s : List Char} {v : ℚ}
    (hneg : '-' ∉ s) (h : pyFloatCore s = some v) : 0 ≤ v := by
  simp only [pyFloatCore] at h
  rw [parseSign_fst_false hneg] at h
  simp only [Bool.false_eq_true, if_false] at h
  split at h
  · cases h
  · split at h
    · rw [Option.some.injEq] at h
      subst h
      positivity
    · split at h
      · split at h
        · cases h
        · split at h <;> (rw [Option.some.injEq] at h; subst h; positivity)
      · cases h

theorem pyFloat_nonneg {s : List Char} {v : ℚ}
    (hneg : '-' ∉ s) (h : pyFloat? s = some v) : 0 ≤ v :=
  pyFloatCore_nonneg (fun hm => hneg (mem_stripWS hm)) h

theorem pyFloat_nil : pyFloat? ([] : List Char) = none := rfl

/-! Branch-shape lemmas for the two normalizers. -/

theorem parse_time_some (s : List Char) (h : ¬(s = [])) :
    parse_time_to_microseconds (some s) =
      (if containsL ['m', 's'] (clean s) = true then
        (pyFloat? (replaceAll [' ', 'm', 's'] [] (clean s))).map (fun v => v * 1000)
      else if containsL ['μ', 's'] (clean s) = true then
        pyFloat? (replaceAll [' ', 'μ', 's'] [] (clean s))
      else if containsL ['s'] (clean s) = true then
        (pyFloat? (replaceAll [' ', 's'] [] (clean s))).map (fun v => v * 1000000)
      else
        match pyFloat? (clean s) with
        | some v => some v
        | none => some 0) := by
  simp only [parse_time_to_microseconds, if_neg h]

theorem parse_memory_some (s : List Char) (h : ¬(s = [])) :
    parse_memory (some s) =
      (if containsL ['K', 'B'] (clean s) = true then
        pyFloat? (replaceAll [' ', 'K', 'B'] [] (clean s))
      else if containsL ['M', 'B'] (clean s) = true then
        (pyFloat? (replaceAll [' ', 'M', 'B'] [] (clean s))).map (fun v => v * 1024)
      else if containsL ['G', 'B'] (clean s) = true then
        (pyFloat? (replaceAll [' ', 'G', 'B'] [] (clean s))).map
          (fun v => v * 1024 * 1024)
      else
        match pyFloat? (clean s) with
        | some v => some v
        | none => some 0) := by
  simp only [parse_memory, if_neg h]

theorem clean_eq_self {s : List Char} (h1 : ',' ∉ s) (h2 : '\"' ∉ s) :
    clean s = s := by
  unfold clean
  rw [replaceAll_of_not_contains [] (containsL_eq_false (by simp) h1),
    replaceAll_of_not_contains [] (containsL_eq_false (by simp) h2)]

/-! Claim theorems. -/

/-- C5: for every absent (NaN/None) or empty-string input, both
`parse_time_to_microseconds` and `parse_memory` return 0. -/
theorem C5_absent_empty_zero :
    parse_time_to_microseconds none = some 0 ∧
    parse_time_to_microseconds (some []) = some 0 ∧
    parse_memory none = some 0 ∧
    parse_memory (some []) = some 0 :=
  ⟨rfl, rfl, rfl, rfl⟩

/-- C6: for every input whose cleaned form contains no recognized unit marker
and does not parse as a plain real number, `parse_time_to_microseconds` and
`parse_memory` return 0 and do not raise; in particular the input "garbage"
yields 0. -/
theorem C6_malformed_zero :
    (∀ s : List Char,
      containsL ['m', 's'] (clean s) = false →
      containsL ['μ', 's'] (clean s) = false →
      containsL ['s'] (clean s) = false →
      pyFloat? (clean s) = none →
      parse_time_to_microseconds (some s) = some 0) ∧
    (∀ s : List Char,
      containsL ['K', 'B'] (clean s) = false →
      containsL ['M', 'B'] (clean s) = false →
      containsL ['G', 'B'] (clean s) = false →
      pyFloat? (clean s) = none →
      parse_memory (some s) = some 0) ∧
    parse_time_to_microseconds (some "garbage".data) = some 0 ∧
    parse_memory (some "garbage".data) = some 0 := by
  refine ⟨?_, ?_, by decide, by decide⟩
  · intro s h1 h2 h3 h4
    by_cases hs : s = []
    · subst hs; rfl
    · rw [parse_time_some s hs, if_neg (by simp [h1]), if_neg (by simp [h2]),
        if_neg (by simp [h3]), h4]
  · intro s h1 h2 h3 h4
    by_cases hs : s = []
    · subst hs; rfl
    · rw [parse_memory_some s hs, if_neg (by simp [h1]), if_neg (by simp [h2]),
        if_neg (by simp [h3]), h4]

/-- Witness for C6 at the concrete marker-free unparseable input "nope". -/
theorem C6_malformed_zero_witness :
    parse_time_to_microseconds (some "nope".data) = some 0 :=
  C6_malformed_zero.1 "nope".data (by decide) (by decide) (by decide) (by decide)

/-- C2 counterexample: with a unit marker present but a non-numeric residue,
the `float` conversion raises — both functions can fail visibly, refuting
the claim that they never raise on any input. -/
theorem C2_total_cex :
    parse_time_to_microseconds (some "x ms".data) = none ∧
    parse_memory (some "x KB".data) = none := by
  decide

/-- C2 amended: both functions return a value (never raise) on absent inputs
and on every input whose cleaned form contains no recognized unit marker;
only a marker branch whose residue fails to parse can raise. -/
theorem C2_total_amended :
    parse_time_to_microseconds none = some 0 ∧
    parse_memory none = some 0 ∧
    (∀ s : List Char,
      containsL ['m', 's'] (clean s) = false →
      containsL ['μ', 's'] (clean s) = false →
      containsL ['s'] (clean s) = false →
      (parse_time_to_microseconds (some s)).isSome = true) ∧
    (∀ s : List Char,
      containsL ['K', 'B'] (clean s) = false →
      containsL ['M', 'B'] (clean s) = false →
      containsL ['G', 'B'] (clean s) = false →
      (parse_memory (some s)).isSome = true) := by
  refine ⟨rfl, rfl, ?_, ?_⟩
  · intro s h1 h2 h3
    by_cases hs : s = []
    · subst hs; rfl
    · rw [parse_time_some s hs, if_neg (by simp [h1]), if_neg (by simp [h2]),
        if_neg (by simp [h3])]
      cases hp : pyFloat? (clean s) <;> rfl
  · intro s h1 h2 h3
    by_cases hs : s = []
    · subst hs; rfl
    · rw [parse_memory_some s hs, if_neg (by simp [h1]), if_neg (by simp [h2]),
        if_neg (by simp [h3])]
      cases hp : pyFloat? (clean s) <;> rfl

/-- Witness for the amended C2 at the concrete marker-free input "hello". -/
theorem C2_total_amended_witness :
    (parse_time_to_microseconds (some "hello".data)).isSome = true :=
  C2_total_amended.2.2.1 "hello".data (by decide) (by decide) (by decide)

/-- C4 counterexample: the input "-5" makes both normalizers return the
negative value -5, refuting the claim that every returned value is
non-negative. -/
theorem C4_nonneg_cex :
    parse_time_to_microseconds (some "-5".data) = some (-5) ∧
    parse_memory (some "-5".data) = some (-5) ∧ ((-5 : ℚ) < 0) := by
  decide

/-- C4 amended: both normalizers return a non-negative value on absent
inputs and on every input string not containing a minus-sign character;
a negative result can only come from a minus sign in the input. -/
theorem C4_nonneg_amended :
    parse_time_to_microseconds none = some 0 ∧
    parse_memory none = some 0 ∧
    (∀ (s : List Char) (q : ℚ), '-' ∉ s →
      parse_time_to_microseconds (some s) = some q → 0 ≤ q) ∧
    (∀ (s : List Char) (q : ℚ), '-' ∉ s →
      parse_memory (some s) = some q → 0 ≤ q) := by
  refine ⟨rfl, rfl, ?_, ?_⟩
  · intro s q hneg h
    by_cases hs : s = []
    · subst hs
      rw [show parse_time_to_microseconds (some []) = some 0 from rfl,
        Option.some.injEq] at h
      exact h ▸ le_refl 0
    · rw [parse_time_some s hs] at h
      have hnc : '-' ∉ clean s := fun hm => hneg (mem_clean hm)
      split_ifs at h
      · rw [Option.map_eq_some'] at h
        obtain ⟨v, hv, rfl⟩ := h
        have : (0 : ℚ) ≤ v :=
          pyFloat_nonneg (fun hm => hnc (mem_replaceAll hm)) hv
        positivity
      · exact pyFloat_nonneg (fun hm => hnc (mem_replaceAll hm)) h
      · rw [Option.map_eq_some'] at h
        obtain ⟨v, hv, rfl⟩ := h
        have : (0 : ℚ) ≤ v :=
          pyFloat_nonneg (fun hm => hnc (mem_replaceAll hm)) hv
        positivity
      · cases hp : pyFloat? (clean s) with
        | none => rw [hp, Option.some.injEq] at h; exact h ▸ le_refl 0
        | some v =>
          rw [hp, Option.some.injEq] at h
          exact h ▸ pyFloat_nonneg hnc hp
  · intro s q hneg h
    by_cases hs : s = []
    · subst hs
      rw [show parse_memory (some []) = some 0 from rfl, Option.some.injEq] at h
      exact h ▸ le_refl 0
    · rw [parse_memory_some s hs] at h
      have hnc : '-' ∉ clean s := fun hm => hneg (mem_clean hm)
      split_ifs at h
      · exact pyFloat_nonneg (fun hm => hnc (mem_replaceAll hm)) h
      · rw [Option.map_eq_some'] at h
        obtain ⟨v, hv, rfl⟩ := h
        have : (0 : ℚ) ≤ v :=
          pyFloat_nonneg (fun hm => hnc (mem_replaceAll hm)) hv
        positivity
      · rw [Option.map_eq_some'] at h
        obtain ⟨v, hv, rfl⟩ := h
        have : (0 : ℚ) ≤ v :=
          pyFloat_nonneg (fun hm => hnc (mem_replaceAll hm)) hv
        positivity
      · cases hp : pyFloat? (clean s) with
        | none => rw [hp, Option.some.injEq] at h; exact h ▸ le_refl 0
        | some v =>
          rw [hp, Option.some.injEq] at h
          exact h ▸ pyFloat_nonneg hnc hp

/-- Witness for the amended C4 at the concrete minus-free input "7 ms". -/
theorem C4_nonneg_amended_witness : (0 : ℚ) ≤ 7000 :=
  C4_nonneg_amended.2.2.1 "7 ms".data 7000 (by decide) (by decide)

/-- C7: both normalizers are idempotent on already-canonical bare numeric
input: any string that parses as a plain number and contains no separator,
quote or unit-marker character is returned unchanged (exactly, in the
rational-number model). -/
theorem C7_idempotent :
    ∀ (s : List Char) (q : ℚ), pyFloat? s = some q →
      ',' ∉ s → '\"' ∉ s → 's' ∉ s → 'B' ∉ s →
      parse_time_to_microseconds (some s) = some q ∧
      parse_memory (some s) = some q := by
  intro s q hq hcomma hquote hsm hbm
  have hs : ¬(s = []) := by
    intro h
    rw [h, pyFloat_nil] at hq
    cases hq
  have hclean : clean s = s := clean_eq_self hcomma hquote
  constructor
  · rw [parse_time_some s hs, hclean,
      if_neg (by simp [containsL_eq_false (show 's' ∈ ['m', 's'] by simp) hsm]),
      if_neg (by simp [containsL_eq_false (show 's' ∈ ['μ', 's'] by simp) hsm]),
      if_neg (by simp [containsL_eq_false (show 's' ∈ ['s'] by simp) hsm]), hq]
  · rw [parse_memory_some s hs, hclean,
      if_neg (by simp [containsL_eq_false (show 'B' ∈ ['K', 'B'] by simp) hbm]),
      if_neg (by simp [containsL_eq_false (show 'B' ∈ ['M', 'B'] by simp) hbm]),
      if_neg (by simp [containsL_eq_false (show 'B' ∈ ['G', 'B'] by simp) hbm]), hq]

/-- Witness for C7 at the concrete bare numeric input "42.5". -/
theorem C7_idempotent_witness :
    parse_time_to_microseconds (some "42.5".data) = some (85 / 2) ∧
    parse_memory (some "42.5".data) = some (85 / 2) :=
  C7_idempotent "42.5".data (85 / 2) (by decide) (by decide) (by decide)
    (by decide) (by decide)

/-- A character of a plain numeric token (digit or decimal point), used to
describe the admissible numeric prefixes in the scaling claim. -/
def numChar (c : Char) : Bool := c.isDigit || c == '.'

theorem numChar_not_mem {num : List Char} (h : ∀ c ∈ num, numChar c = true)
    {x : Char} (hx : numChar x = false) : x ∉ num := by
  intro hm
  rw [h x hm] at hx
  cases hx

theorem not_mem_append_num {num sfx : List Char} {x : Char}
    (h : ∀ c ∈ num, numChar c = true) (hx : numChar x = false) (hs : x ∉ sfx) :
    x ∉ num ++ sfx := by
  intro hm
  rcases List.mem_append.mp hm with hm | hm
  · exact numChar_not_mem h hx hm
  · exact hs hm

/-- C1: for inputs formed by a numeric prefix followed by a recognized unit
marker, the normalizers return the prefix value scaled by the documented
factor (ms ×1000, bare s ×1000000, μs ×1, KB ×1, MB ×1024, GB ×1048576);
in particular the three documented examples hold. -/
theorem C1_scaling :
    (∀ (num : List Char) (q : ℚ), (∀ c ∈ num, numChar c = true) →
      pyFloat? num = some q →
      parse_time_to_microseconds (some (num ++ [' ', 'm', 's'])) =
        some (q * 1000) ∧
      parse_time_to_microseconds (some (num ++ [' ', 'μ', 's'])) = some q ∧
      parse_time_to_microseconds (some (num ++ [' ', 's'])) =
        some (q * 1000000) ∧
      parse_memory (some (num ++ [' ', 'K', 'B'])) = some q ∧
      parse_memory (some (num ++ [' ', 'M', 'B'])) = some (q * 1024) ∧
      parse_memory (some (num ++ [' ', 'G', 'B'])) = some (q * 1024 * 1024)) ∧
    parse_time_to_microseconds (some "1,234 ms".data) = some 1234000 ∧
    parse_time_to_microseconds (some "150 μs".data) = some 150 ∧
    parse_memory (some "2 MB".data) = some 2048 := by
  refine ⟨?_, by decide, by decide, by decide⟩
  intro num q h hq
  have hsp : ' ' ∉ num := numChar_not_mem h (by decide)
  refine ⟨?_, ?_, ?_, ?_, ?_, ?_⟩
  · have hclean : clean (num ++ [' ', 'm', 's']) = num ++ [' ', 'm', 's'] :=
      clean_eq_self (not_mem_append_num h (by decide) (by decide))
        (not_mem_append_num h (by decide) (by decide))
    have hms : containsL ['m', 's'] (num ++ [' ', 'm', 's']) = true := by
      have he : num ++ [' ', 'm', 's'] = (num ++ [' ']) ++ 'm' :: ['s'] := by simp
      rw [he]
      exact containsL_append_self 'm' ['s'] (num ++ [' '])
    rw [parse_time_some _ (by simp), hclean, if_pos hms,
      replaceAll_append_pat hsp, hq]
    rfl
  · have hclean : clean (num ++ [' ', 'μ', 's']) = num ++ [' ', 'μ', 's'] :=
      clean_eq_self (not_mem_append_num h (by decide) (by decide))
        (not_mem_append_num h (by decide) (by decide))
    have hms : containsL ['m', 's'] (num ++ [' ', 'μ', 's']) = false :=
      containsL_eq_false (show 'm' ∈ ['m', 's'] by simp)
        (not_mem_append_num h (by decide) (by decide))
    have hus : containsL ['μ', 's'] (num ++ [' ', 'μ', 's']) = true := by
      have he : num ++ [' ', 'μ', 's'] = (num ++ [' ']) ++ 'μ' :: ['s'] := by simp
      rw [he]
      exact containsL_append_self 'μ' ['s'] (num ++ [' '])
    rw [parse_time_some _ (by simp), hclean, if_neg (by simp [hms]),
      if_pos hus, replaceAll_append_pat hsp, hq]
  · have hclean : clean (num ++ [' ', 's']) = num ++ [' ', 's'] :=
      clean_eq_self (not_mem_append_num h (by decide) (by decide))
        (not_mem_append_num h (by decide) (by decide))
    have hms : containsL ['m', 's'] (num ++ [' ', 's']) = false :=
      containsL_eq_false (show 'm' ∈ ['m', 's'] by simp)
        (not_mem_append_num h (by decide) (by decide))
    have hus : containsL ['μ', 's'] (num ++ [' ', 's']) = false :=
      containsL_eq_false (show 'μ' ∈ ['μ', 's'] by simp)
        (not_mem_append_num h (by decide) (by decide))
    have hss : containsL ['s'] (num ++ [' ', 's']) = true := by
      have he : num ++ [' ', 's'] = (num ++ [' ']) ++ 's' :: [] := by simp
      rw [he]
      exact containsL_append_self 's' [] (num ++ [' '])
    rw [parse_time_some _ (by simp), hclean, if_neg (by simp [hms]),
      if_neg (by simp [hus]), if_pos hss, replaceAll_append_pat hsp, hq]
    rfl
  · have hclean : clean (num ++ [' ', 'K', 'B']) = num ++ [' ', 'K', 'B'] :=
      clean_eq_self (not_mem_append_num h (by decide) (by decide))
        (not_mem_append_num h (by decide) (by decide))
    have hkb : containsL ['K', 'B'] (num ++ [' ', 'K', 'B']) = true := by
      have he : num ++ [' ', 'K', 'B'] = (num ++ [' ']) ++ 'K' :: ['B'] := by simp
      rw [he]
      exact containsL_append_self 'K' ['B'] (num ++ [' '])
    rw [parse_memory_some _ (by simp), hclean, if_pos hkb,
      replaceAll_append_pat hsp, hq]
  · have hclean : clean (num ++ [' ', 'M', 'B']) = num ++ [' ', 'M', 'B'] :=
      clean_eq_self (not_mem_append_num h (by decide) (by decide))
        (not_mem_append_num h (by decide) (by decide))
    have hkb : containsL ['K', 'B'] (num ++ [' ', 'M', 'B']) = false :=
      containsL_eq_false (show 'K' ∈ ['K', 'B'] by simp)
        (not_mem_append_num h (by decide) (by decide))
    have hmb : containsL ['M', 'B'] (num ++ [' ', 'M', 'B']) = true := by
      have he : num ++ [' ', 'M', 'B'] = (num ++ [' ']) ++ 'M' :: ['B'] := by simp
      rw [he]
      exact containsL_append_self 'M' ['B'] (num ++ [' '])
    rw [parse_memory_some _ (by simp), hclean, if_neg (by simp [hkb]),
      if_pos hmb, replaceAll_append_pat hsp, hq]
    rfl
  · have hclean : clean (num ++ [' ', 'G', 'B']) = num ++ [' ', 'G', 'B'] :=
      clean_eq_self (not_mem_append_num h (by decide) (by decide))
        (not_mem_append_num h (by decide) (by decide))
    have hkb : containsL ['K', 'B'] (num ++ [' ', 'G', 'B']) = false :=
      containsL_eq_false (show 'K' ∈ ['K', 'B'] by simp)
        (not_mem_append_num h (by decide) (by decide))
    have hmb : containsL ['M', 'B'] (num ++ [' ', 'G', 'B']) = false :=
      containsL_eq_false (show 'M' ∈ ['M', 'B'] by simp)
        (not_mem_append_num h (by decide) (by decide))
    have hgb : containsL ['G', 'B'] (num ++ [' ', 'G', 'B']) = true := by
      have he : num ++ [' ', 'G', 'B'] = (num ++ [' ']) ++ 'G' :: ['B'] := by simp
      rw [he]
      exact containsL_append_self 'G' ['B'] (num ++ [' '])
    rw [parse_memory_some _ (by simp), hclean, if_neg (by simp [hkb]),
      if_neg (by simp [hmb]), if_pos hgb, replaceAll_append_pat hsp, hq]
    rfl

/-- Witness for C1 at the concrete numeric prefix "42". -/
theorem C1_scaling_witness :
    parse_time_to_microseconds (some (['4', '2'] ++ [' ', 'm', 's'])) =
      some (42 * 1000) :=
  ((C1_scaling.1 ['4', '2'] 42 (by decide) (by decide)).1)

/-- C3: the millisecond marker is checked before the microsecond marker,
which is checked before the bare-seconds marker, and the first match fixes
the result; for memory the kilobyte marker is checked before megabyte before
gigabyte.  In particular "5 ms" and "150 μs" both contain the bare-seconds
marker, yet are handled by the earlier branch. -/
theorem C3_marker_precedence :
    (∀ s : List Char, s ≠ [] → containsL ['m', 's'] (clean s) = true →
      parse_time_to_microseconds (some s) =
        (pyFloat? (replaceAll [' ', 'm', 's'] [] (clean s))).map
          (fun v => v * 1000)) ∧
    (∀ s : List Char, s ≠ [] → containsL ['m', 's'] (clean s) = false →
      containsL ['μ', 's'] (clean s) = true →
      parse_time_to_microseconds (some s) =
        pyFloat? (replaceAll [' ', 'μ', 's'] [] (clean s))) ∧
    (∀ s : List Char, s ≠ [] → containsL ['m', 's'] (clean s) = false →
      containsL ['μ', 's'] (clean s) = false →
      containsL ['s'] (clean s) = true →
      parse_time_to_microseconds (some s) =
        (pyFloat? (replaceAll [' ', 's'] [] (clean s))).map
          (fun v => v * 1000000)) ∧
    (∀ s : List Char, s ≠ [] → containsL ['K', 'B'] (clean s) = true →
      parse_memory (some s) =
        pyFloat? (replaceAll [' ', 'K', 'B'] [] (clean s))) ∧
    (∀ s : List Char, s ≠ [] → containsL ['K', 'B'] (clean s) = false →
      containsL ['M', 'B'] (clean s) = true →
      parse_memory (some s) =
        (pyFloat? (replaceAll [' ', 'M', 'B'] [] (clean s))).map
          (fun v => v * 1024)) ∧
    (∀ s : List Char, s ≠ [] → containsL ['K', 'B'] (clean s) = false →
      containsL ['M', 'B'] (clean s) = false →
      containsL ['G', 'B'] (clean s) = true →
      parse_memory (some s) =
        (pyFloat? (replaceAll [' ', 'G', 'B'] [] (clean s))).map
          (fun v => v * 1024 * 1024)) ∧
    (containsL ['s'] (clean "5 ms".data) = true ∧
     parse_time_to_microseconds (some "5 ms".data) = some 5000 ∧
     containsL ['s'] (clean "150 μs".data) = true ∧
     parse_time_to_microseconds (some "150 μs".data) = some 150) := by
  refine ⟨?_, ?_, ?_, ?_, ?_, ?_, by decide, by decide, by decide, by decide⟩
  · intro s hs h1
    rw [parse_time_some s hs, if_pos h1]
  · intro s hs h1 h2
    rw [parse_time_some s hs, if_neg (by simp [h1]), if_pos h2]
  · intro s hs h1 h2 h3
    rw [parse_time_some s hs, if_neg (by simp [h1]), if_neg (by simp [h2]),
      if_pos h3]
  · intro s hs h1
    rw [parse_memory_some s hs, if_pos h1]
  · intro s hs h1 h2
    rw [parse_memory_some s hs, if_neg (by simp [h1]), if_pos h2]
  · intro s hs h1 h2 h3
    rw [parse_memory_some s hs, if_neg (by simp [h1]), if_neg (by simp [h2]),
      if_pos h3]

/-- Witness for C3 at the concrete input "5 ms", which also contains the
bare-seconds marker. -/
theorem C3_marker_precedence_witness :
    parse_time_to_microseconds (some "5 ms".data) =
      (pyFloat? (replaceAll [' ', 'm', 's'] [] (clean "5 ms".data))).map
        (fun v => v * 1000) :=
  C3_marker_precedence.1 "5 ms".data (by decide) (by decide)

/-- Deletion of every comma and double-quote character from a string: the
transformation the separator-invariance claim quantifies over. -/
def stripSep (s : List Char) : List Char :=
  s.filter (fun c => !(c == ',' || c == '\"'))

theorem clean_eq_stripSep (s : List Char) : clean s = stripSep s := by
  unfold clean stripSep
  rw [replaceAll_single_filter, replaceAll_single_filter, List.filter_filter]
  apply List.filter_congr
  intro a _
  cases ha : (a == ',') <;> cases hb : (a == '\"') <;> simp [ha, hb]

theorem stripSep_idem (s : List Char) : stripSep (stripSep s) = stripSep s := by
  unfold stripSep
  rw [List.filter_filter]
  apply List.filter_congr
  intro a _
  cases ha : (a == ',' || a == '\"') <;> simp [ha]

theorem clean_stripSep (s : List Char) : clean (stripSep s) = clean s := by
  rw [clean_eq_stripSep, clean_eq_stripSep, stripSep_idem]

theorem clean_nil : clean ([] : List Char) = [] := rfl

/-- C10: commas and double quotes anywhere in the input never affect either
normalizer: each returns on any input exactly what it returns on the input
with every comma and double-quote character deleted. -/
theorem C10_sep_invariant :
    ∀ s : List Char,
      parse_time_to_microseconds (some s) =
        parse_time_to_microseconds (some (stripSep s)) ∧
      parse_memory (some s) = parse_memory (some (stripSep s)) := by
  intro s
  by_cases hs : s = []
  · subst hs
    exact ⟨rfl, rfl⟩
  by_cases hss : stripSep s = []
  · have hcs : clean s = [] := by rw [← clean_stripSep, hss, clean_nil]
    constructor
    · rw [parse_time_some s hs, hcs, hss]
      rfl
    · rw [parse_memory_some s hs, hcs, hss]
      rfl
  · constructor
    · rw [parse_time_some s hs, parse_time_some _ hss, clean_stripSep]
    · rw [parse_memory_some s hs, parse_memory_some _ hss, clean_stripSep]

/-! Lemmas about the aggregation model. -/

theorem operations_nodup : operations.Nodup := by decide

theorem techRecords_mem {op tech : List Char} {t : List NormRow}
    {rec : CrudRecord} (h : rec ∈ techRecords op tech t) :
    rec.Operation = op ∧ rec.Technology = tech := by
  unfold techRecords at h
  split at h
  · cases h
  · rw [List.mem_singleton] at h
    subst h
    exact ⟨rfl, rfl⟩

theorem filter_op_flatMap (l : List (List Char))
    (f : List Char → List CrudRecord)
    (hf : ∀ o rec, rec ∈ f o → rec.Operation = o) (op : List Char)
    (hnd : l.Nodup) (hop : op ∈ l) (q : CrudRecord → Bool) :
    (l.flatMap f).filter (fun rec => rec.Operation == op && q rec) =
      (f op).filter q := by
  induction l with
  | nil => cases hop
  | cons o rest ih =>
    rw [List.flatMap_cons, List.filter_append]
    rcases List.nodup_cons.mp hnd with ⟨hno, hndr⟩
    rcases List.mem_cons.mp hop with rfl | hop2
    · have h1 : (f op).filter (fun rec => rec.Operation == op && q rec) =
          (f op).filter q := by
        apply List.filter_congr
        intro rec hrec
        simp [hf op rec hrec]
      have h2 : (rest.flatMap f).filter
          (fun rec => rec.Operation == op && q rec) = [] := by
        rw [List.filter_eq_nil_iff]
        intro rec hrec
        rcases List.mem_flatMap.mp hrec with ⟨o2, ho2, hrec2⟩
        have hne : o2 ≠ op := fun h => hno (h ▸ ho2)
        simp [hf o2 rec hrec2, hne]
      rw [h1, h2, List.append_nil]
    · have hne : o ≠ op := fun h => hno (h ▸ hop2)
      have h1 : (f o).filter (fun rec => rec.Operation == op && q rec) = [] := by
        rw [List.filter_eq_nil_iff]
        intro rec hrec
        simp [hf o rec hrec, hne]
      rw [h1, List.nil_append, ih hndr hop2]

theorem buildComparison_tag (e a d : List NormRow) :
    ∀ (o : List Char) (rec : CrudRecord),
      rec ∈ (techRecords o efTech e ++ techRecords o adoTech a ++
        techRecords o dapTech d) → rec.Operation = o := by
  intro o rec h
  rcases List.mem_append.mp h with h | h
  · rcases List.mem_append.mp h with h | h
    · exact (techRecords_mem h).1
    · exact (techRecords_mem h).1
  · exact (techRecords_mem h).1

theorem buildComparison_filter (e a d : List NormRow) (op : List Char)
    (hop : op ∈ operations) (q : CrudRecord → Bool) :
    (buildComparison e a d).filter (fun rec => rec.Operation == op && q rec) =
      (techRecords op efTech e ++ techRecords op adoTech a ++
        techRecords op dapTech d).filter q := by
  unfold buildComparison
  exact filter_op_flatMap operations _ (buildComparison_tag e a d) op
    operations_nodup hop q

theorem techRecords_filter_tech_ne {tech tech2 : List Char}
    (h : tech ≠ tech2) (op : List Char) (t : List NormRow) :
    (techRecords op tech t).filter (fun rec => rec.Technology == tech2) = [] := by
  unfold techRecords
  split
  · rfl
  · simp [h]

theorem techRecords_filter_tech_self (op tech : List Char) (t : List NormRow) :
    (techRecords op tech t).filter (fun rec => rec.Technology == tech) =
      techRecords op tech t := by
  unfold techRecords
  split
  · rfl
  · simp

theorem normalizeTable_filter {ef : List SrcRow} {eN : List NormRow}
    (h : normalizeTable ef = some eN) (op : List Char) :
    (ef.filter (fun r => r.Method == op) = [] →
      eN.filter (fun r => r.Method == op) = []) ∧
    (∀ (r : SrcRow) (rs : List SrcRow),
      ef.filter (fun r => r.Method == op) = r :: rs →
      ∃ (t m : ℚ) (nrs : List NormRow),
        parse_time_to_microseconds r.Mean = some t ∧
        parse_memory r.Allocated = some m ∧
        eN.filter (fun x => x.Method == op) = ⟨r.Method, t, m⟩ :: nrs) := by
  induction ef generalizing eN with
  | nil =>
    simp only [normalizeTable, Option.some.injEq] at h
    subst h
    constructor
    · intro _; rfl
    · intro r rs h2
      simp at h2
  | cons x xs ih =>
    cases hx : normalizeRow x with
    | none => simp [normalizeTable, hx] at h
    | some nx =>
      cases hxs : normalizeTable xs with
      | none => simp [normalizeTable, hx, hxs] at h
      | some nxs =>
        simp only [normalizeTable, hx, hxs, Option.some.injEq] at h
        subst h
        have hx2 : ∃ t m, parse_time_to_microseconds x.Mean = some t ∧
            parse_memory x.Allocated = some m ∧ nx = ⟨x.Method, t, m⟩ := by
          unfold normalizeRow at hx
          cases hpt : parse_time_to_microseconds x.Mean with
          | none => rw [hpt] at hx; cases hx
          | some t =>
            cases hpm : parse_memory x.Allocated with
            | none => rw [hpt, hpm] at hx; cases hx
            | some m =>
              rw [hpt, hpm, Option.some.injEq] at hx
              exact ⟨t, m, rfl, rfl, hx.symm⟩
        obtain ⟨t, m, hpt, hpm, rfl⟩ := hx2
        have ihs := ih hxs
        by_cases hmx : (x.Method == op) = true
        · constructor
          · intro h0
            simp [List.filter_cons, hmx] at h0
          · intro r rs hf
            rw [List.filter_cons, if_pos hmx] at hf
            obtain ⟨rfl, rfl⟩ : x = r ∧ xs.filter (fun r => r.Method == op) = rs :=
              ⟨(List.cons.injEq _ _ _ _).mp hf |>.1,
               (List.cons.injEq _ _ _ _).mp hf |>.2⟩
            refine ⟨t, m, nxs.filter (fun x => x.Method == op), hpt, hpm, ?_⟩
            rw [List.filter_cons]
            simp only [show (NormRow.mk x.Method t m).Method = x.Method from rfl,
              hmx, if_true]
        · constructor
          · intro h0
            rw [List.filter_cons, if_neg hmx] at h0
            rw [List.filter_cons,
              if_neg (show ¬((NormRow.mk x.Method t m).Method == op) = true from hmx)]
            exact ihs.1 h0
          · intro r rs hf
            rw [List.filter_cons, if_neg hmx] at hf
            obtain ⟨t2, m2, nrs, h1, h2, h3⟩ := ihs.2 r rs hf
            refine ⟨t2, m2, nrs, h1, h2, ?_⟩
            rw [List.filter_cons,
              if_neg (show ¬((NormRow.mk x.Method t m).Method == op) = true from hmx)]
            exact h3

theorem filter_top (l : List CrudRecord) : l.filter (fun _ => true) = l := by
  induction l with
  | nil => rfl
  | cons x xs ih => rw [List.filter_cons]; simp [ih]

theorem buildComparison_filter_op (e a d : List NormRow) (op : List Char)
    (hop : op ∈ operations) :
    (buildComparison e a d).filter (fun rec => rec.Operation == op) =
      techRecords op efTech e ++ techRecords op adoTech a ++
        techRecords op dapTech d := by
  have h := buildComparison_filter e a d op hop (fun _ => true)
  simp only [Bool.and_true] at h
  rw [h, filter_top]

theorem prepare_eq_some {ef ado dap : List SrcRow} {res : List CrudRecord}
    (h : prepare_crud_comparison_data ef ado dap = some res) :
    ∃ eN aN dN, normalizeTable ef = some eN ∧ normalizeTable ado = some aN ∧
      normalizeTable dap = some dN ∧ res = buildComparison eN aN dN := by
  unfold prepare_crud_comparison_data at h
  split at h
  · rename_i e a d h1 h2 h3
    exact ⟨e, a, d, h1, h2, h3, ((Option.some.injEq _ _).mp h).symm⟩
  · cases h

/-- C8 counterexample: the Method value "Foo" is present in exactly one
technology's source table, yet the combined comparison table contains no
record at all for it, because the loop only visits the fixed CRUD operation
list — refuting the claim for operation names outside that list. -/
theorem C8_unique_cex :
    ([(⟨"Foo".data, some "1 ms".data, some "2 KB".data⟩ : SrcRow)].filter
        (fun r => r.Method == "Foo".data) ≠ []) ∧
    prepare_crud_comparison_data
        [⟨"Foo".data, some "1 ms".data, some "2 KB".data⟩] [] [] = some [] := by
  decide

/-- C8 amended: for every operation name in the fixed CRUD operation list
that is present (as a Method value) in exactly one technology's source
table, the combined table contains exactly one record for that (operation,
technology) pair, carrying the normalized Mean and Allocated of the first
matching source row; the other technologies contribute no record. -/
theorem C8_unique :
    (∀ (ef ado dap : List SrcRow) (op : List Char) (r : SrcRow)
        (rs : List SrcRow) (res : List CrudRecord) (t m : ℚ),
      op ∈ operations →
      ef.filter (fun x => x.Method == op) = r :: rs →
      ado.filter (fun x => x.Method == op) = [] →
      dap.filter (fun x => x.Method == op) = [] →
      prepare_crud_comparison_data ef ado dap = some res →
      parse_time_to_microseconds r.Mean = some t →
      parse_memory r.Allocated = some m →
      res.filter (fun rec => rec.Operation == op) = [⟨op, efTech, t, m⟩]) ∧
    (∀ (ef ado dap : List SrcRow) (op : List Char) (r : SrcRow)
        (rs : List SrcRow) (res : List CrudRecord) (t m : ℚ),
      op ∈ operations →
      ef.filter (fun x => x.Method == op) = [] →
      ado.filter (fun x => x.Method == op) = r :: rs →
      dap.filter (fun x => x.Method == op) = [] →
      prepare_crud_comparison_data ef ado dap = some res →
      parse_time_to_microseconds r.Mean = some t →
      parse_memory r.Allocated = some m →
      res.filter (fun rec => rec.Operation == op) = [⟨op, adoTech, t, m⟩]) ∧
    (∀ (ef ado dap : List SrcRow) (op : List Char) (r : SrcRow)
        (rs : List SrcRow) (res : List CrudRecord) (t m : ℚ),
      op ∈ operations →
      ef.filter (fun x => x.Method == op) = [] →
      ado.filter (fun x => x.Method == op) = [] →
      dap.filter (fun x => x.Method == op) = r :: rs →
      prepare_crud_comparison_data ef ado dap = some res →
      parse_time_to_microseconds r.Mean = some t →
      parse_memory r.Allocated = some m →
      res.filter (fun rec => rec.Operation == op) = [⟨op, dapTech, t, m⟩]) := by
  refine ⟨?_, ?_, ?_⟩
  · intro ef ado dap op r rs res t m hop hef hado hdap hres hpt hpm
    obtain ⟨eN, aN, dN, heN, haN, hdN, rfl⟩ := prepare_eq_some hres
    obtain ⟨t2, m2, nrs, hpt2, hpm2, hfe⟩ :=
      (normalizeTable_filter heN op).2 r rs hef
    injection hpt2.symm.trans hpt with ht
    injection hpm2.symm.trans hpm with hm
    subst ht hm
    have hfa := (normalizeTable_filter haN op).1 hado
    have hfd := (normalizeTable_filter hdN op).1 hdap
    rw [buildComparison_filter_op eN aN dN op hop]
    have he : techRecords op efTech eN = [⟨op, efTech, t2, m2⟩] := by
      simp [techRecords, hfe]
    have ha : techRecords op adoTech aN = [] := by simp [techRecords, hfa]
    have hd : techRecords op dapTech dN = [] := by simp [techRecords, hfd]
    rw [he, ha, hd]
    rfl
  · intro ef ado dap op r rs res t m hop hef hado hdap hres hpt hpm
    obtain ⟨eN, aN, dN, heN, haN, hdN, rfl⟩ := prepare_eq_some hres
    obtain ⟨t2, m2, nrs, hpt2, hpm2, hfa⟩ :=
      (normalizeTable_filter haN op).2 r rs hado
    injection hpt2.symm.trans hpt with ht
    injection hpm2.symm.trans hpm with hm
    subst ht hm
    have hfe := (normalizeTable_filter heN op).1 hef
    have hfd := (normalizeTable_filter hdN op).1 hdap
    rw [buildComparison_filter_op eN aN dN op hop]
    have he : techRecords op efTech eN = [] := by simp [techRecords, hfe]
    have ha : techRecords op adoTech aN = [⟨op, adoTech, t2, m2⟩] := by
      simp [techRecords, hfa]
    have hd : techRecords op dapTech dN = [] := by simp [techRecords, hfd]
    rw [he, ha, hd]
    rfl
  · intro ef ado dap op r rs res t m hop hef hado hdap hres hpt hpm
    obtain ⟨eN, aN, dN, heN, haN, hdN, rfl⟩ := prepare_eq_some hres
    obtain ⟨t2, m2, nrs, hpt2, hpm2, hfd⟩ :=
      (normalizeTable_filter hdN op).2 r rs hdap
    injection hpt2.symm.trans hpt with ht
    injection hpm2.symm.trans hpm with hm
    subst ht hm
    have hfe := (normalizeTable_filter heN op).1 hef
    have hfa := (normalizeTable_filter haN op).1 hado
    rw [buildComparison_filter_op eN aN dN op hop]
    have he : techRecords op efTech eN = [] := by simp [techRecords, hfe]
    have ha : techRecords op adoTech aN = [] := by simp [techRecords, hfa]
    have hd : techRecords op dapTech dN = [⟨op, dapTech, t2, m2⟩] := by
      simp [techRecords, hfd]
    rw [he, ha, hd]
    rfl

/-- Witness for the amended C8: a one-row Entity Framework table holding
"ReadOrder" produces exactly the one expected record. -/
theorem C8_unique_witness :
    ([(⟨"ReadOrder".data, efTech, 1000, 2⟩ : CrudRecord)].filter
        (fun rec => rec.Operation == "ReadOrder".data)) =
      [⟨"ReadOrder".data, efTech, 1000, 2⟩] :=
  C8_unique.1 [⟨"ReadOrder".data, some "1 ms".data, some "2 KB".data⟩] [] []
    "ReadOrder".data ⟨"ReadOrder".data, some "1 ms".data, some "2 KB".data⟩ []
    [⟨"ReadOrder".data, efTech, 1000, 2⟩] 1000 2
    (by decide) (by decide) (by decide) (by decide) (by decide) (by decide)
    (by decide)

/-- C9: when a technology's table has several rows whose Method equals an
operation of the fixed CRUD list, the combined table carries exactly one
record for that (operation, technology) pair, built from the first matching
row; the later duplicates are ignored. -/
theorem C9_first_match :
    (∀ (ef ado dap : List SrcRow) (op : List Char) (r1 r2 : SrcRow)
        (rs : List SrcRow) (res : List CrudRecord) (t m : ℚ),
      op ∈ operations →
      ef.filter (fun x => x.Method == op) = r1 :: r2 :: rs →
      prepare_crud_comparison_data ef ado dap = some res →
      parse_time_to_microseconds r1.Mean = some t →
      parse_memory r1.Allocated = some m →
      res.filter (fun rec => rec.Operation == op && rec.Technology == efTech) =
        [⟨op, efTech, t, m⟩]) ∧
    (∀ (ef ado dap : List SrcRow) (op : List Char) (r1 r2 : SrcRow)
        (rs : List SrcRow) (res : List CrudRecord) (t m : ℚ),
      op ∈ operations →
      ado.filter (fun x => x.Method == op) = r1 :: r2 :: rs →
      prepare_crud_comparison_data ef ado dap = some res →
      parse_time_to_microseconds r1.Mean = some t →
      parse_memory r1.Allocated = some m →
      res.filter (fun rec => rec.Operation == op && rec.Technology == adoTech) =
        [⟨op, adoTech, t, m⟩]) ∧
    (∀ (ef ado dap : List SrcRow) (op : List Char) (r1 r2 : SrcRow)
        (rs : List SrcRow) (res : List CrudRecord) (t m : ℚ),
      op ∈ operations →
      dap.filter (fun x => x.Method == op) = r1 :: r2 :: rs →
      prepare_crud_comparison_data ef ado dap = some res →
      parse_time_to_microseconds r1.Mean = some t →
      parse_memory r1.Allocated = some m →
      res.filter (fun rec => rec.Operation == op && rec.Technology == dapTech) =
        [⟨op, dapTech, t, m⟩]) := by
  refine ⟨?_, ?_, ?_⟩
  · intro ef ado dap op r1 r2 rs res t m hop hef hres hpt hpm
    obtain ⟨eN, aN, dN, heN, haN, hdN, rfl⟩ := prepare_eq_some hres
    obtain ⟨t2, m2, nrs, hpt2, hpm2, hfe⟩ :=
      (normalizeTable_filter heN op).2 r1 (r2 :: rs) hef
    injection hpt2.symm.trans hpt with ht
    injection hpm2.symm.trans hpm with hm
    subst ht hm
    have hbc : (buildComparison eN aN dN).filter
        (fun rec => rec.Operation == op && rec.Technology == efTech) =
        (techRecords op efTech eN ++ techRecords op adoTech aN ++
          techRecords op dapTech dN).filter
          (fun rec => rec.Technology == efTech) :=
      buildComparison_filter eN aN dN op hop _
    rw [hbc, List.filter_append, List.filter_append,
      techRecords_filter_tech_self,
      techRecords_filter_tech_ne (show adoTech ≠ efTech by decide),
      techRecords_filter_tech_ne (show dapTech ≠ efTech by decide),
      List.append_nil, List.append_nil]
    simp [techRecords, hfe]
  · intro ef ado dap op r1 r2 rs res t m hop hado hres hpt hpm
    obtain ⟨eN, aN, dN, heN, haN, hdN, rfl⟩ := prepare_eq_some hres
    obtain ⟨t2, m2, nrs, hpt2, hpm2, hfa⟩ :=
      (normalizeTable_filter haN op).2 r1 (r2 :: rs) hado
    injection hpt2.symm.trans hpt with ht
    injection hpm2.symm.trans hpm with hm
    subst ht hm
    have hbc : (buildComparison eN aN dN).filter
        (fun rec => rec.Operation == op && rec.Technology == adoTech) =
        (techRecords op efTech eN ++ techRecords op adoTech aN ++
          techRecords op dapTech dN).filter
          (fun rec => rec.Technology == adoTech) :=
      buildComparison_filter eN aN dN op hop _
    rw [hbc, List.filter_append, List.filter_append,
      techRecords_filter_tech_self,
      techRecords_filter_tech_ne (show efTech ≠ adoTech by decide),
      techRecords_filter_tech_ne (show dapTech ≠ adoTech by decide),
      List.append_nil, List.nil_append]
    simp [techRecords, hfa]
  · intro ef ado dap op r1 r2 rs res t m hop hdap hres hpt hpm
    obtain ⟨eN, aN, dN, heN, haN, hdN, rfl⟩ := prepare_eq_some hres
    obtain ⟨t2, m2, nrs, hpt2, hpm2, hfd⟩ :=
      (normalizeTable_filter hdN op).2 r1 (r2 :: rs) hdap
    injection hpt2.symm.trans hpt with ht
    injection hpm2.symm.trans hpm with hm
    subst ht hm
    have hbc : (buildComparison eN aN dN).filter
        (fun rec => rec.Operation == op && rec.Technology == dapTech) =
        (techRecords op efTech eN ++ techRecords op adoTech aN ++
          techRecords op dapTech dN).filter
          (fun rec => rec.Technology == dapTech) :=
      buildComparison_filter eN aN dN op hop _
    rw [hbc, List.filter_append, List.filter_append,
      techRecords_filter_tech_self,
      techRecords_filter_tech_ne (show efTech ≠ dapTech by decide),
      techRecords_filter_tech_ne (show adoTech ≠ dapTech by decide),
      List.nil_append, List.nil_append]
    simp [techRecords, hfd]

/-- Witness for C9: a table with two "ReadOrder" rows yields the single
record built from the first of them. -/
theorem C9_first_match_witness :
    ([(⟨"ReadOrder".data, efTech, 1000, 2⟩ : CrudRecord)].filter
        (fun rec => rec.Operation == "ReadOrder".data &&
          rec.Technology == efTech)) =
      [⟨"ReadOrder".data, efTech, 1000, 2⟩] :=
  C9_first_match.1
    [⟨"ReadOrder".data, some "1 ms".data, some "2 KB".data⟩,
     ⟨"ReadOrder".data, some "3 ms".data, some "4 KB".data⟩] [] []
    "ReadOrder".data ⟨"ReadOrder".data, some "1 ms".data, some "2 KB".data⟩
    ⟨"ReadOrder".data, some "3 ms".data, some "4 KB".data⟩ []
    [⟨"ReadOrder".data, efTech, 1000, 2⟩] 1000 2
    (by decide) (by decide) (by decide) (by decide) (by decide)

end Pruebas
